import Mathlib

/-!
Verification of the mon-os kernel core against its specification.

The definitions below are a shallow embedding of the Rust sources under
`src/kernel/src/`.  Machine integers (`u8`, `u32`, `u64`, `usize`) are
modelled as `Nat` with explicit `% 2 ^ w` reductions exactly where the
source casts or where wrapping arithmetic can occur; saturating
operations are modelled explicitly; fallible operations return `Option`
or `Except`.  Hardware behaviour (timer interrupts, the xHCI consumer)
is abstracted into explicit oracle parameters, noted at each definition.
-/

namespace MonOS

/-- The `Action` record from `ai_action.rs` (`kind`, `flags` are `u8`,
the params are `u64`; the two reserved bytes carry no information). -/
structure Action where
  kind : ℕ
  flags : ℕ
  param1 : ℕ
  param2 : ℕ
  param3 : ℕ
  deriving Repr, DecidableEq

/-- A journal line as emitted by `journal.rs`: each of the four
emitters (`journal_intent`, `journal_commit`, `journal_fail`,
`journal_reject`) writes one line `seq=<n> <VERB> ...` carrying the
sequence number and either the action kind or the failure code. -/
inductive JLine where
  | intent (seq kind : ℕ)
  | applyOk (seq kind : ℕ)
  | applyFail (seq code : ℕ)
  | reject (seq kind : ℕ)
  deriving Repr, DecidableEq

/-- Whether a journal line is one of the outcome verbs
`APPLY_OK`, `APPLY_FAIL`, `REJECT` (everything except `INTENT`). -/
def JLine.isOutcome : JLine → Bool
  | .intent _ _ => false
  | .applyOk _ _ => true
  | .applyFail _ _ => true
  | .reject _ _ => true

/-- The sequence number carried by a journal line. -/
def JLine.seqOf : JLine → ℕ
  | .intent s _ => s
  | .applyOk s _ => s
  | .applyFail s _ => s
  | .reject s _ => s

namespace ApplyAction

/-- `ApplyError` from `apply_action.rs`. -/
inductive ApplyError where
  | NotAllowed
  | InvalidParams
  | ExecuteFailed
  | SelfTestFailed
  deriving Repr, DecidableEq

/-- The discriminant values of `ApplyError` (used as outcome codes). -/
def ApplyError.code : ApplyError → ℕ
  | .NotAllowed => 1
  | .InvalidParams => 3
  | .ExecuteFailed => 4
  | .SelfTestFailed => 5

/-- `is_allowed` from `apply_action.rs`: only `SetQuantum` (1) and
`TrimCache` (4) are allowed kinds. -/
def is_allowed (kind : ℕ) : Bool :=
  kind == 1 || kind == 4

/-- `validate_params` from `apply_action.rs`.  Note the source performs
`a.param1 as u32` for `SetQuantum`, i.e. the validated value is
`param1 % 2 ^ 32`; for `TrimCache` the `u64` value is used directly. -/
def validate_params (a : Action) : Bool :=
  if a.kind = 1 then
    decide (100 ≤ a.param1 % 2 ^ 32 ∧ a.param1 % 2 ^ 32 ≤ 50000)
  else if a.kind = 4 then
    decide (0 < a.param1 ∧ a.param1 ≤ 16 * 1024 * 1024)
  else false

/-- `apply_action_atomic` from `apply_action.rs`, as a pure function.

Inputs: `selftest_ok` is the outcome of `self_test_ok` (it depends on
the timer and page-fault interrupt counters, i.e. on hardware, so it is
an oracle parameter); `ready` is the value of the `SYSTEM_READY` latch;
`quantum` is the current value of the `QUANTUM_US` cell (a `u32`);
`seq` and `a` are the arguments.

Output: the `ApplyResult`, the new value of `QUANTUM_US`, and the list
of journal lines emitted, in order.  `write_quantum` always returns
`true` and stores `a.param1 as u32`; `trim_cache` is a stub returning
`true`. -/
def apply_action_atomic (selftest_ok : Bool) (ready : Bool) (quantum : ℕ)
    (seq : ℕ) (a : Action) : Except ApplyError Unit × ℕ × List JLine :=
  if !ready then
    (.error .NotAllowed, quantum, [.reject seq a.kind])
  else if !(is_allowed a.kind && validate_params a) then
    (.error .NotAllowed, quantum, [.reject seq a.kind])
  else
    let before := quantum
    let okq : Bool × ℕ :=
      if a.kind = 1 then (true, a.param1 % 2 ^ 32)
      else if a.kind = 4 then (true, quantum)
      else (false, quantum)
    if !okq.1 then
      (.error .ExecuteFailed, okq.2, [.intent seq a.kind, .applyFail seq 4])
    else if selftest_ok then
      (.ok (), okq.2, [.intent seq a.kind, .applyOk seq a.kind])
    else
      (.error .SelfTestFailed, before, [.intent seq a.kind, .applyFail seq 5])

/-- `ai_propose_action` from `apply_action.rs`, as a pure function.

`action = none` models a null `action` pointer and `outcome_null`
models a null `outcome` pointer.  The result is the `i32` return value,
the new quantum, the new sequence counter (`SEQ` is a `u64` advanced
with `wrapping_add`), the journal lines emitted, and the outcome
`result` byte written through the pointer (`none` when nothing is
written). -/
def ai_propose_action (selftest_ok : Bool) (action : Option Action)
    (outcome_null : Bool) (ready : Bool) (quantum seq_ctr : ℕ) :
    Int × ℕ × ℕ × List JLine × Option ℕ :=
  match action with
  | none => (-1, quantum, seq_ctr, [], none)
  | some a =>
    if outcome_null then (-1, quantum, seq_ctr, [], none)
    else
      let seq := seq_ctr
      let seq_ctr1 := (seq_ctr + 1) % 2 ^ 64
      let r := apply_action_atomic selftest_ok ready quantum seq a
      let code : ℕ :=
        match r.1 with
        | .ok _ => 0
        | .error e => e.code
      (0, r.2.1, seq_ctr1, r.2.2, some code)

end ApplyAction

open ApplyAction in
/-- C1 counterexample: the action `SetQuantum` with `param1 = 2^32 + 2000`
has its `u64` parameter far above 50000, yet `propose` does not reject it:
the validation truncates `param1` to `u32` (giving 2000), the action is
applied, the quantum changes from 1000 to 2000, the journal shows
`INTENT` then `APPLY_OK`, and the outcome is `ACCEPTED` (0) — contradicting
the claim that every `SetQuantum` whose `u64` param1 exceeds 50000 is
rejected with the quantum unchanged. -/
theorem quantum_truncation_defeats_validation :
    50000 < (2 ^ 32 + 2000 : ℕ) ∧
    ai_propose_action true (some ⟨1, 0, 2 ^ 32 + 2000, 0, 0⟩) false true 1000 7 =
      (0, 2000, 8, [.intent 7 1, .applyOk 7 1], some 0) := by
  refine ⟨by norm_num, ?_⟩
  rfl

open ApplyAction in
/-- C1 (amended): while `system_ready` is set, `apply_action_atomic`
journals exactly one `REJECT` line and returns `NotAllowed` (outcome
code 1, `REJECTED`) if and only if the kind is not `SetQuantum` (1) or
`TrimCache` (4), or the parameters are invalid — where for `SetQuantum`
the validated value is `param1` truncated to `u32` (`param1 % 2^32`),
and for `TrimCache` it is `param1 = 0` or `param1 > 16 MiB`.  In
particular a `SetQuantum` action whose truncated `param1 % 2^32`
exceeds 50000 is rejected and leaves the quantum unchanged. -/
theorem reject_iff_invalid (selftest_ok : Bool) (q seq : ℕ) (a : Action) :
    (((apply_action_atomic selftest_ok true q seq a).1 = .error .NotAllowed ∧
      (apply_action_atomic selftest_ok true q seq a).2.2 = [.reject seq a.kind]) ↔
      ¬ ((a.kind = 1 ∧ 100 ≤ a.param1 % 2 ^ 32 ∧ a.param1 % 2 ^ 32 ≤ 50000) ∨
         (a.kind = 4 ∧ 0 < a.param1 ∧ a.param1 ≤ 16 * 1024 * 1024))) ∧
    (a.kind = 1 → 50000 < a.param1 % 2 ^ 32 →
      (apply_action_atomic selftest_ok true q seq a).1 = .error .NotAllowed ∧
      (apply_action_atomic selftest_ok true q seq a).2.1 = q ∧
      (apply_action_atomic selftest_ok true q seq a).2.2 = [.reject seq a.kind]) := by
  have hval : (is_allowed a.kind && validate_params a) = true ↔
      ((a.kind = 1 ∧ 100 ≤ a.param1 % 2 ^ 32 ∧ a.param1 % 2 ^ 32 ≤ 50000) ∨
       (a.kind = 4 ∧ 0 < a.param1 ∧ a.param1 ≤ 16 * 1024 * 1024)) := by
    unfold is_allowed validate_params
    by_cases h1 : a.kind = 1 <;> by_cases h4 : a.kind = 4 <;> simp [h1, h4]
  constructor
  · constructor
    · intro h hcontra
      have := hval.mpr hcontra
      unfold apply_action_atomic at h
      simp [this] at h
      rcases hcontra with ⟨h1, _⟩ | ⟨h4, _⟩
      · simp [h1] at h
        exact absurd h.1 (by cases selftest_ok <;> simp)
      · by_cases h1 : a.kind = 1
        · simp [h1] at h
          exact absurd h.1 (by cases selftest_ok <;> simp)
        · simp [h1, h4] at h
          exact absurd h.1 (by cases selftest_ok <;> simp)
    · intro h
      have hfalse : (is_allowed a.kind && validate_params a) = false := by
        cases hx : (is_allowed a.kind && validate_params a) with
        | false => rfl
        | true => exact absurd (hval.mp hx) h
      unfold apply_action_atomic
      simp [hfalse]
  · intro h1 hgt
    have hfalse : (is_allowed a.kind && validate_params a) = false := by
      cases hx : (is_allowed a.kind && validate_params a) with
      | false => rfl
      | true =>
        rcases hval.mp hx with ⟨_, _, hle⟩ | ⟨h4, _⟩
        · omega
        · rw [h1] at h4; omega
    unfold apply_action_atomic
    simp [hfalse]

open ApplyAction in
/-- C1 witness: with the system ready, `SetQuantum` with `param1 = 60000`
(truncated value 60000 > 50000) is rejected with the quantum unchanged. -/
theorem reject_iff_invalid_witness :
    (apply_action_atomic true true 1000 0 ⟨1, 0, 60000, 0, 0⟩).1 =
      .error .NotAllowed ∧
    (apply_action_atomic true true 1000 0 ⟨1, 0, 60000, 0, 0⟩).2.1 = 1000 ∧
    (apply_action_atomic true true 1000 0 ⟨1, 0, 60000, 0, 0⟩).2.2 =
      [.reject 0 1] :=
  (reject_iff_invalid true 1000 0 ⟨1, 0, 60000, 0, 0⟩).2 rfl (by norm_num)

open ApplyAction in
/-- C2: whenever `apply_action_atomic` returns `SelfTestFailed`, the
quantum it leaves behind equals the `before` value snapshotted under the
apply mutex just before the `INTENT` journal line (which, nothing having
mutated the quantum between entry and the snapshot, is the entry value):
the failed transaction leaves the quantum unchanged. -/
theorem selftest_failed_restores_quantum (selftest_ok ready : Bool)
    (q seq : ℕ) (a : Action)
    (h : (apply_action_atomic selftest_ok ready q seq a).1 =
      .error .SelfTestFailed) :
    (apply_action_atomic selftest_ok ready q seq a).2.1 = q := by
  by_cases hr : ready <;> by_cases hA : is_allowed a.kind <;>
    by_cases hV : validate_params a <;> by_cases h1 : a.kind = 1 <;>
      by_cases h4 : a.kind = 4 <;> cases selftest_ok <;>
        simp_all [apply_action_atomic]

open ApplyAction in
/-- C2 witness: a valid `SetQuantum(2000)` under a failing self-test
returns `SelfTestFailed` and the quantum observable afterwards is the
snapshotted before-value 1000. -/
theorem selftest_failed_restores_quantum_witness :
    (apply_action_atomic false true 1000 0 ⟨1, 0, 2000, 0, 0⟩).1 =
      .error .SelfTestFailed ∧
    (apply_action_atomic false true 1000 0 ⟨1, 0, 2000, 0, 0⟩).2.1 = 1000 :=
  ⟨by rfl, selftest_failed_restores_quantum false true 1000 0
    ⟨1, 0, 2000, 0, 0⟩ (by rfl)⟩

open ApplyAction in
/-- C3: every call to `apply_action_atomic` — any kind, any parameters,
any `system_ready` state, any self-test outcome — emits exactly one
journal line among `APPLY_OK`, `APPLY_FAIL`, `REJECT`, and every line it
emits carries that action's sequence number. -/
theorem journal_exactly_one_outcome (selftest_ok ready : Bool)
    (q seq : ℕ) (a : Action) :
    ((apply_action_atomic selftest_ok ready q seq a).2.2.filter
        JLine.isOutcome).length = 1 ∧
    ∀ l ∈ (apply_action_atomic selftest_ok ready q seq a).2.2,
      l.seqOf = seq := by
  by_cases hr : ready <;> by_cases hA : is_allowed a.kind <;>
    by_cases hV : validate_params a <;> by_cases h1 : a.kind = 1 <;>
      by_cases h4 : a.kind = 4 <;> cases selftest_ok <;>
        simp_all [apply_action_atomic, JLine.isOutcome, JLine.seqOf]

open ApplyAction in
/-- C3 witness: a rejected action (system not ready) journals exactly
one outcome line, carrying its sequence number. -/
theorem journal_exactly_one_outcome_witness :
    ((apply_action_atomic true false 1000 5 ⟨3, 0, 0, 0, 0⟩).2.2.filter
        JLine.isOutcome).length = 1 ∧
    ∀ l ∈ (apply_action_atomic true false 1000 5 ⟨3, 0, 0, 0, 0⟩).2.2,
      l.seqOf = 5 :=
  journal_exactly_one_outcome true false 1000 5 ⟨3, 0, 0, 0, 0⟩

open ApplyAction in
/-- C10: when `ai_propose_action` is called with a null `action` pointer
or a null `outcome` pointer, it returns `-1` and has no other effect:
no journal line is emitted, the sequence counter is not incremented,
the quantum is unchanged, and the outcome record is not written. -/
theorem null_pointer_rejected (selftest_ok : Bool) (action : Option Action)
    (outcome_null ready : Bool) (q seq_ctr : ℕ)
    (h : action = none ∨ outcome_null = true) :
    ai_propose_action selftest_ok action outcome_null ready q seq_ctr =
      (-1, q, seq_ctr, [], none) := by
  rcases h with h | h
  · subst h; rfl
  · subst h
    cases action <;> rfl

open ApplyAction in
/-- C10 witness: the null-action call at a concrete state returns `-1`
with no state change, no journal output, and no outcome written. -/
theorem null_pointer_rejected_witness :
    ai_propose_action true none false true 1000 3 = (-1, 1000, 3, [], none) :=
  null_pointer_rejected true none false true 1000 3 (Or.inl rfl)

namespace Pmm

/-- Reduction modulo `2^64`, modelling `u64` wrapping arithmetic
(release-mode Rust integer overflow wraps). -/
def wrap64 (x : ℕ) : ℕ := x % 2 ^ 64

/-- Bitwise NOT on a `u64` value. -/
def not64 (x : ℕ) : ℕ := 2 ^ 64 - 1 - x

/-- `align_up` from `pmm.rs`: `(value + align - 1) & !(align - 1)` on
`u64`, where `value + align - 1` evaluates as
`value.wrapping_add(align).wrapping_sub(1)`. -/
def align_up (value align : ℕ) : ℕ :=
  wrap64 (wrap64 (value + align) + (2 ^ 64 - 1)) &&& not64 (align - 1)

/-- The process-wide allocator state of `pmm.rs`: the `NEXT_FREE`
cursor and the `LIMIT`, both `u64` atomics. -/
structure PmmState where
  next_free : ℕ
  limit : ℕ
  deriving Repr, DecidableEq

/-- `alloc_aligned` from `pmm.rs`, as a pure state transformer.  In the
single-threaded embedding the compare-and-swap always succeeds, so the
retry loop body runs exactly once.  `PAGE_SIZE = 4096`; the
`checked_add` of the aligned address and adjusted size returns `none`
on `u64` overflow. -/
def alloc_aligned (s : PmmState) (size align : ℕ) :
    Option (ℕ × PmmState) :=
  if align = 0 ∨ align &&& (align - 1) ≠ 0 then none
  else if s.next_free = 0 ∨ s.limit ≤ s.next_free then none
  else if 2 ^ 64 ≤ align_up s.next_free align + align_up size (max 4096 align)
    then none
  else if s.limit < align_up s.next_free align + align_up size (max 4096 align)
    then none
  else some (align_up s.next_free align,
    ⟨align_up s.next_free align + align_up size (max 4096 align), s.limit⟩)

/-- A sequence of further allocation requests applied in order
(failed requests leave the state unchanged, as in the source where a
`none` return does not move the cursor). -/
def alloc_seq (s : PmmState) : List (ℕ × ℕ) → PmmState
  | [] => s
  | (sz, al) :: rest =>
    match alloc_aligned s sz al with
    | none => alloc_seq s rest
    | some (_, s1) => alloc_seq s1 rest

lemma testBit_div_pow (x n m : ℕ) :
    (x / 2 ^ n).testBit m = x.testBit (m + n) := by
  induction n generalizing x m with
  | zero => simp
  | succ k ih =>
    rw [pow_succ, ← Nat.div_div_eq_div_mul, Nat.testBit_div_two, ih]
    ring_nf

/-- A nonzero value with `a &&& (a - 1) = 0` (the power-of-two test in
`alloc_aligned`) is a power of two. -/
lemma exists_pow_of_land_pred :
    ∀ a : ℕ, a ≠ 0 → a &&& (a - 1) = 0 → ∃ k, a = 2 ^ k := by
  intro a
  induction a using Nat.strong_induction_on with
  | _ a ih =>
    intro h0 h
    rcases Nat.even_or_odd a with he | ho
    · obtain ⟨b, hb⟩ := he
      have hb2 : a = 2 * b := by omega
      have hbne : b ≠ 0 := by omega
      have hland : b &&& (b - 1) = 0 := by
        apply Nat.eq_of_testBit_eq
        intro i
        have h1 := congrArg (fun x => x.testBit (i + 1)) h
        simp only [Nat.testBit_land, Nat.zero_testBit] at h1
        rw [Nat.testBit_succ, Nat.testBit_succ] at h1
        have e1 : a / 2 = b := by omega
        have e2 : (a - 1) / 2 = b - 1 := by omega
        rw [e1, e2] at h1
        simp [Nat.testBit_land, h1]
      obtain ⟨k, hk⟩ := ih b (by omega) hbne hland
      exact ⟨k + 1, by rw [hb2, hk, pow_succ]; ring⟩
    · obtain ⟨c, hc⟩ := ho
      by_cases hc0 : c = 0
      · exact ⟨0, by omega⟩
      · exfalso
        apply hc0
        apply Nat.eq_of_testBit_eq
        intro i
        have h1 := congrArg (fun x => x.testBit (i + 1)) h
        simp only [Nat.testBit_land, Nat.zero_testBit] at h1
        rw [Nat.testBit_succ, Nat.testBit_succ] at h1
        have e1 : a / 2 = c := by omega
        have e2 : (a - 1) / 2 = c := by omega
        rw [e1, e2] at h1
        simpa using h1

/-- Clearing the low `k` bits of a 64-bit value with the mask
`2^64 - 2^k` rounds it down to a multiple of `2^k`. -/
lemma land_mask_eq (k x : ℕ) (hk : k ≤ 64) (hx : x < 2 ^ 64) :
    x &&& (2 ^ 64 - 2 ^ k) = 2 ^ k * (x / 2 ^ k) := by
  apply Nat.eq_of_testBit_eq
  intro i
  rw [Nat.testBit_land]
  have hmask : (2 ^ 64 - 2 ^ k) = 2 ^ k * (2 ^ (64 - k) - 1) := by
    rw [Nat.mul_sub, mul_one, ← pow_add]
    have hkk : k + (64 - k) = 64 := by omega
    rw [hkk]
  rw [hmask, Nat.testBit_mul_pow_two, Nat.testBit_mul_pow_two,
    Nat.testBit_two_pow_sub_one, testBit_div_pow]
  by_cases hik : k ≤ i
  · by_cases h64 : i < 64
    · simp [hik, Nat.sub_lt_sub_iff_right hik |>.mpr, Nat.sub_add_cancel hik]
      omega
    · have hxi : x.testBit i = false :=
        Nat.testBit_eq_false_of_lt (lt_of_lt_of_le hx
          (Nat.pow_le_pow_right (by norm_num) (by omega)))
      simp [hik, hxi, Nat.sub_add_cancel hik]
  · simp [hik]

/-- For a power-of-two alignment, when `value + align` does not exceed
`2^64` the wrapping arithmetic in `align_up` is exact:
`align_up value (2^k) = 2^k * ((value + 2^k - 1) / 2^k)`. -/
lemma align_up_eq_of_no_wrap (v k : ℕ) (hk : k ≤ 63)
    (hv : v + 2 ^ k ≤ 2 ^ 64) :
    align_up v (2 ^ k) = 2 ^ k * ((v + 2 ^ k - 1) / 2 ^ k) := by
  have hpos : 0 < 2 ^ k := Nat.pos_pow_of_pos k (by norm_num)
  have hk64 : (2 : ℕ) ^ k ≤ 2 ^ 63 := Nat.pow_le_pow_right (by norm_num) hk
  unfold align_up
  have h1 : wrap64 (wrap64 (v + 2 ^ k) + (2 ^ 64 - 1)) = v + 2 ^ k - 1 := by
    unfold wrap64
    omega
  have h2 : not64 (2 ^ k - 1) = 2 ^ 64 - 2 ^ k := by
    unfold not64
    omega
  rw [h1, h2, land_mask_eq k _ (by omega) (by omega)]

/-- Bounds for `align_up` at power-of-two alignment without wraparound:
the result is at least `v`, at most `v + 2^k - 1`, and a multiple of
`2^k`. -/
lemma align_up_bounds (v k : ℕ) (hk : k ≤ 63) (hv : v + 2 ^ k ≤ 2 ^ 64) :
    v ≤ align_up v (2 ^ k) ∧ align_up v (2 ^ k) ≤ v + (2 ^ k - 1) ∧
    align_up v (2 ^ k) % 2 ^ k = 0 := by
  have hpos : 0 < 2 ^ k := Nat.pos_pow_of_pos k (by norm_num)
  rw [align_up_eq_of_no_wrap v k hk hv]
  have hdm := Nat.div_add_mod (v + 2 ^ k - 1) (2 ^ k)
  have hmod := Nat.mod_lt (v + 2 ^ k - 1) hpos
  refine ⟨by omega, by omega, Nat.mul_mod_right _ _⟩

/-- Success conditions and outputs of `alloc_aligned`, read off from the
definition. -/
lemma alloc_aligned_some {s : PmmState} {size align addr : ℕ}
    {s1 : PmmState} (h : alloc_aligned s size align = some (addr, s1)) :
    align ≠ 0 ∧ align &&& (align - 1) = 0 ∧ s.next_free ≠ 0 ∧
    s.next_free < s.limit ∧ addr = align_up s.next_free align ∧
    s1.next_free = addr + align_up size (max 4096 align) ∧
    s1.limit = s.limit ∧
    addr + align_up size (max 4096 align) ≤ s.limit ∧
    addr + align_up size (max 4096 align) < 2 ^ 64 := by
  unfold alloc_aligned at h
  split_ifs at h with h1 h2 h3 h4
  push_neg at h1 h2
  injection h with h
  obtain ⟨ha, hs⟩ := Prod.mk.injEq .. ▸ h
  cases hs
  exact ⟨h1.1, h1.2, h2.1, by omega, ha.symm ▸ rfl, by rw [← ha],
    rfl, by rw [← ha]; omega, by rw [← ha]; omega⟩

/-- Single-allocation properties in the no-wraparound regime: the
returned address is at or after the cursor, is aligned, the cursor
advances past `addr + size`, and stays within the stored limit. -/
lemma alloc_aligned_mono {s : PmmState} {size align addr : ℕ}
    {s1 : PmmState} (hsz : size + max 4096 align ≤ 2 ^ 64)
    (hal : s.next_free + align ≤ 2 ^ 64)
    (h : alloc_aligned s size align = some (addr, s1)) :
    s.next_free ≤ addr ∧ addr % align = 0 ∧ addr + size ≤ s1.next_free ∧
    s1.next_free ≤ s1.limit ∧ s1.limit = s.limit := by
  obtain ⟨hA0, hApow, hnf0, hnflt, haddr, hs1, hlim, hle, hov⟩ :=
    alloc_aligned_some h
  obtain ⟨k, rfl⟩ := exists_pow_of_land_pred align hA0 hApow
  have hk : k ≤ 63 := by
    by_contra hgt
    have : (2 : ℕ) ^ 64 ≤ 2 ^ k := Nat.pow_le_pow_right (by norm_num) (by omega)
    omega
  have hb := align_up_bounds s.next_free k hk hal
  have hmax : max 4096 (2 ^ k) = 2 ^ max 12 k := by
    have h4096 : (4096 : ℕ) = 2 ^ 12 := by norm_num
    rw [h4096]
    rcases le_total k 12 with hki | hki
    · rw [max_eq_left (Nat.pow_le_pow_right (by norm_num) hki), max_eq_left hki]
    · rw [max_eq_right (Nat.pow_le_pow_right (by norm_num) hki),
        max_eq_right hki]
  have hm63 : max 12 k ≤ 63 := by omega
  have hszb := align_up_bounds size (max 12 k) hm63 (by rw [← hmax]; omega)
  rw [hmax] at hs1 hle
  refine ⟨haddr ▸ hb.1, haddr ▸ hb.2.2, ?_, ?_, hlim⟩
  · omega
  · rw [hlim]; omega

/-- The allocator never moves the cursor backwards nor past the limit
across any sequence of requests in the no-wraparound regime, and the
limit is never changed. -/
lemma alloc_seq_mono (ops : List (ℕ × ℕ)) (s : PmmState)
    (hinv : s.next_free ≤ s.limit)
    (hops : ∀ p ∈ ops, p.1 + max 4096 p.2 ≤ 2 ^ 64 ∧
      p.2 + s.limit ≤ 2 ^ 64) :
    (alloc_seq s ops).limit = s.limit ∧
    s.next_free ≤ (alloc_seq s ops).next_free ∧
    (alloc_seq s ops).next_free ≤ s.limit := by
  induction ops generalizing s with
  | nil => exact ⟨rfl, le_refl _, hinv⟩
  | cons p rest ih =>
    obtain ⟨sz, al⟩ := p
    have hp := hops (sz, al) (by simp)
    simp only [alloc_seq]
    cases hA : alloc_aligned s sz al with
    | none =>
      exact ih s hinv fun q hq => hops q (by simp [hq])
    | some r =>
      obtain ⟨addr, s1⟩ := r
      have hm := alloc_aligned_mono hp.1 (by omega) hA
      have hlim1 : s1.limit = s.limit := hm.2.2.2.2
      have h1 := ih s1 (hlim1 ▸ hm.2.2.2.1)
        (fun q hq => by rw [hlim1]; exact hops q (by simp [hq]))
      refine ⟨by rw [h1.1, hlim1], ?_, by rw [← hlim1]; exact h1.2.2⟩
      calc s.next_free ≤ addr := hm.1
        _ ≤ s1.next_free := le_trans (Nat.le_add_right _ _) hm.2.2.1
        _ ≤ (alloc_seq s1 rest).next_free := h1.2.1

end Pmm

open Pmm in
/-- C6 counterexample: with cursor 4096 and limit 65536, the request
`alloc_aligned (2^64 - 1) 1` succeeds — the `u64` computation
`size + align - 1` wraps, so the adjusted size collapses to 0 — and
returns address 4096 without moving the cursor; a following
`alloc_aligned 4096 4096` returns the same address 4096.  So two
successful allocations A1 before A2 exist with
`addr(A1) + size(A1) > addr(A2)`, contradicting the claim as stated. -/
theorem alloc_wraparound_counterexample :
    alloc_aligned ⟨4096, 65536⟩ (2 ^ 64 - 1) 1 =
      some (4096, ⟨4096, 65536⟩) ∧
    alloc_aligned ⟨4096, 65536⟩ 4096 4096 =
      some (4096, ⟨8192, 65536⟩) ∧
    ¬ (4096 + (2 ^ 64 - 1) ≤ 4096) := by
  refine ⟨by decide, by decide, by norm_num⟩

open Pmm in
/-- C6 (amended): for every two successful `alloc_aligned` calls A1
(before) and A2 (after, with any other allocation requests in between)
whose size and alignment arithmetic cannot wrap `u64`
(`size + max 4096 align ≤ 2^64` and `align + limit ≤ 2^64` for each
call involved) and starting from a state with `next_free ≤ limit`:
`addr(A1) + size(A1) ≤ addr(A2)`, each returned address is a multiple
of its requested alignment, the cursor only advances, and it never
passes the stored limit, which is never changed. -/
theorem alloc_aligned_sequential (s : Pmm.PmmState)
    (size1 align1 size2 align2 : ℕ) (mids : List (ℕ × ℕ))
    (addr1 addr2 : ℕ) (s1 s2 : Pmm.PmmState)
    (hinv : s.next_free ≤ s.limit)
    (h1no : size1 + max 4096 align1 ≤ 2 ^ 64)
    (h1al : align1 + s.limit ≤ 2 ^ 64)
    (h2no : size2 + max 4096 align2 ≤ 2 ^ 64)
    (h2al : align2 + s.limit ≤ 2 ^ 64)
    (hmids : ∀ p ∈ mids, p.1 + max 4096 p.2 ≤ 2 ^ 64 ∧
      p.2 + s.limit ≤ 2 ^ 64)
    (h1 : alloc_aligned s size1 align1 = some (addr1, s1))
    (h2 : alloc_aligned (alloc_seq s1 mids) size2 align2 =
      some (addr2, s2)) :
    addr1 + size1 ≤ addr2 ∧ addr1 % align1 = 0 ∧ addr2 % align2 = 0 ∧
    s.next_free ≤ s1.next_free ∧ s1.next_free ≤ s2.next_free ∧
    s2.next_free ≤ s2.limit ∧ s2.limit = s.limit := by
  have hm1 := alloc_aligned_mono h1no (by omega) h1
  have hlim1 : s1.limit = s.limit := hm1.2.2.2.2
  have hseq := alloc_seq_mono mids s1 (hlim1 ▸ hm1.2.2.2.1)
    (fun q hq => by rw [hlim1]; exact hmids q hq)
  have hmlim : (alloc_seq s1 mids).limit = s.limit := by
    rw [hseq.1, hlim1]
  have hmnf : (alloc_seq s1 mids).next_free ≤ s.limit := by
    have := hseq.2.2
    omega
  have hm2 := alloc_aligned_mono h2no (by omega) h2
  have hlim2 : s2.limit = s.limit := by rw [hm2.2.2.2.2, hmlim]
  refine ⟨?_, hm1.2.1, hm2.2.1, ?_, ?_, hm2.2.2.2.1, hlim2⟩
  · calc addr1 + size1 ≤ s1.next_free := hm1.2.2.1
      _ ≤ (alloc_seq s1 mids).next_free := hseq.2.1
      _ ≤ addr2 := hm2.1
  · have := hm1.1
    have := hm1.2.2.1
    omega
  · calc s1.next_free ≤ (alloc_seq s1 mids).next_free := hseq.2.1
      _ ≤ addr2 := hm2.1
      _ ≤ s2.next_free := le_trans (Nat.le_add_right _ _) hm2.2.2.1

open Pmm in
/-- C6 witness: two concrete back-to-back allocations (8192 bytes at
alignment 64, then 4096 at 4096) from cursor 4096 / limit 2^20 satisfy
all the hypotheses and yield non-overlapping aligned addresses 4096 and
12288 with the cursor advancing to 16384 ≤ 2^20. -/
theorem alloc_aligned_sequential_witness :
    4096 + 8192 ≤ 12288 ∧ 4096 % 64 = 0 ∧ 12288 % 4096 = 0 ∧
    (4096 : ℕ) ≤ 12288 ∧ (12288 : ℕ) ≤ 16384 ∧
    (16384 : ℕ) ≤ 1048576 ∧ (1048576 : ℕ) = 1048576 :=
  alloc_aligned_sequential ⟨4096, 1048576⟩ 8192 64 4096 4096 []
    4096 12288 ⟨12288, 1048576⟩ ⟨16384, 1048576⟩
    (by norm_num) (by norm_num) (by norm_num) (by norm_num) (by norm_num)
    (by simp) (by decide) (by decide)

namespace AiModel

/-- `ModelHeader` from `ai_model.rs`: magic bytes, `n_layers : u16`,
`hidden : u16`, `vocab : u32`, `dtype : u8` (reserved bytes omitted,
they carry no information). -/
structure ModelHeader where
  magic : List ℕ
  n_layers : ℕ
  hidden : ℕ
  vocab : ℕ
  dtype : ℕ
  deriving Repr, DecidableEq

/-- The magic bytes `b"AIMD"`. -/
def MAGIC : List ℕ := [0x41, 0x49, 0x4D, 0x44]

/-- `ModelHeader::valid` from `ai_model.rs`. -/
def ModelHeader.valid (h : ModelHeader) : Bool :=
  h.magic == MAGIC && decide (1 ≤ h.n_layers) && decide (1 ≤ h.hidden) &&
    (h.dtype == 0 || h.dtype == 1)

/-- `usize::saturating_add` (64-bit). -/
def satAdd64 (x y : ℕ) : ℕ := min (x + y) (2 ^ 64 - 1)

/-- `usize::saturating_mul` (64-bit). -/
def satMul64 (x y : ℕ) : ℕ := min (x * y) (2 ^ 64 - 1)

/-- `last_out` as computed in `ai_model.rs`:
`if vocab != 0 { vocab } else { hidden }`. -/
def last_out (h : ModelHeader) : ℕ :=
  if h.vocab ≠ 0 then h.vocab else h.hidden

/-- The per-layer output dimension: `last_out` for the final layer,
`hidden` otherwise (as in every loop of `ai_model.rs`). -/
def out_dim (h : ModelHeader) (l : ℕ) : ℕ :=
  if l + 1 = h.n_layers then last_out h else h.hidden

/-- The saturating offset-accumulation loop shared by
`layer_ptr_int8`, `bias_ptr_i32` and `WeightsLayout::compute`:
value of `offset` after iterating `for l in 0..n`, each step adding
`in_dim.saturating_mul(out_dim)` then
`out_dim.saturating_mul(size_of::<i32>())`. -/
def offset_loop (h : ModelHeader) : ℕ → ℕ
  | 0 => 0
  | n + 1 =>
    satAdd64 (satAdd64 (offset_loop h n) (satMul64 h.hidden (out_dim h n)))
      (satMul64 (out_dim h n) 4)

/-- `WeightsLayout::compute` from `ai_model.rs` (the `total_bytes`
field). -/
def WeightsLayout_compute (h : ModelHeader) : Option ℕ :=
  if h.dtype ≠ 0 then none
  else if h.n_layers = 0 then none
  else some (offset_loop h h.n_layers)

/-- `layer_ptr_int8` from `ai_model.rs` (`PAYLOAD_OFFSET = 0x10`). -/
def layer_ptr_int8 (base : ℕ) (h : ModelHeader) (layer : ℕ) : Option ℕ :=
  if h.dtype ≠ 0 then none
  else if h.n_layers ≤ layer then none
  else some (base + 16 + offset_loop h layer)

/-- `layer_dims` from `ai_model.rs`. -/
def layer_dims (h : ModelHeader) (layer : ℕ) : Option (ℕ × ℕ) :=
  if h.n_layers ≤ layer then none
  else some (h.hidden, out_dim h layer)

/-- `bias_ptr_i32` from `ai_model.rs`: the layer offset plus the weight
bytes of this layer. -/
def bias_ptr_i32 (base : ℕ) (h : ModelHeader) (layer : ℕ) : Option ℕ :=
  if h.dtype ≠ 0 then none
  else if h.n_layers ≤ layer then none
  else some (base + 16 +
    satAdd64 (offset_loop h layer) (satMul64 h.hidden (out_dim h layer)))

lemma out_dim_lt (h : ModelHeader) (hh : h.hidden < 2 ^ 16)
    (hv : h.vocab < 2 ^ 32) (l : ℕ) : out_dim h l < 2 ^ 32 := by
  unfold out_dim last_out
  split_ifs <;> omega

/-- With the `u16`/`u32` field bounds of the header record, the
saturating loop never saturates: it computes the exact sum of the
per-layer weight and bias extents, and stays below `2^50`. -/
lemma offset_loop_eq_sum (h : ModelHeader) (hn : h.n_layers < 2 ^ 16)
    (hh : h.hidden < 2 ^ 16) (hv : h.vocab < 2 ^ 32) :
    ∀ n, n ≤ h.n_layers →
      offset_loop h n =
        ∑ l ∈ Finset.range n, (h.hidden * out_dim h l + 4 * out_dim h l) ∧
      offset_loop h n ≤
        n * 2 ^ 33 + (if h.n_layers ≤ n then 2 ^ 49 else 0) := by
  intro n
  induction n with
  | zero => simp [offset_loop]
  | succ m ih =>
    intro hle
    have hm := ih (by omega)
    have hout := out_dim_lt h hh hv m
    have hmulb : h.hidden * out_dim h m ≤ (2 ^ 16 - 1) * (2 ^ 32 - 1) :=
      Nat.mul_le_mul (by omega) (by omega)
    have hmul1 : satMul64 h.hidden (out_dim h m) = h.hidden * out_dim h m := by
      unfold satMul64
      have : (2 ^ 16 - 1) * (2 ^ 32 - 1) < 2 ^ 64 - 1 := by norm_num
      omega
    have hmul4b : out_dim h m * 4 ≤ (2 ^ 32 - 1) * 4 :=
      Nat.mul_le_mul (by omega) (le_refl 4)
    have hmul4 : satMul64 (out_dim h m) 4 = out_dim h m * 4 := by
      unfold satMul64
      have : (2 ^ 32 - 1) * 4 < 2 ^ 64 - 1 := by norm_num
      omega
    have hprev : offset_loop h m ≤ m * 2 ^ 33 + 2 ^ 49 := by
      rcases hm.2 with hb
      split_ifs at hb <;> omega
    have hadd1 : satAdd64 (offset_loop h m) (h.hidden * out_dim h m) =
        offset_loop h m + h.hidden * out_dim h m := by
      unfold satAdd64
      have h49 : (2 : ℕ) ^ 16 * 2 ^ 33 = 2 ^ 49 := by norm_num
      have : (2 ^ 16 - 1) * (2 ^ 32 - 1) + 2 ^ 16 * 2 ^ 33 + 2 ^ 49 <
          2 ^ 64 - 1 := by norm_num
      have hmb : m * 2 ^ 33 ≤ 2 ^ 16 * 2 ^ 33 :=
        Nat.mul_le_mul (by omega) (le_refl _)
      omega
    have hadd2 : satAdd64 (offset_loop h m + h.hidden * out_dim h m)
        (out_dim h m * 4) =
        offset_loop h m + h.hidden * out_dim h m + out_dim h m * 4 := by
      unfold satAdd64
      have : (2 ^ 16 - 1) * (2 ^ 32 - 1) + 2 ^ 16 * 2 ^ 33 + 2 ^ 49 +
          (2 ^ 32 - 1) * 4 < 2 ^ 64 - 1 := by norm_num
      have hmb : m * 2 ^ 33 ≤ 2 ^ 16 * 2 ^ 33 :=
        Nat.mul_le_mul (by omega) (le_refl _)
      omega
    constructor
    · rw [offset_loop, hmul1, hmul4, hadd1, hadd2, hm.1,
        Finset.sum_range_succ]
      ring
    · rw [offset_loop, hmul1, hmul4, hadd1, hadd2]
      by_cases hcase : m + 1 = h.n_layers
      · have hif0 : ¬ (h.n_layers ≤ m) := by omega
        rw [if_neg hif0] at hm
        have hif1 : h.n_layers ≤ m + 1 := by omega
        rw [if_pos hif1]
        have : (2 ^ 16 - 1) * (2 ^ 32 - 1) + (2 ^ 32 - 1) * 4 ≤ 2 ^ 49 := by
          norm_num
        omega
      · have hod : out_dim h m = h.hidden := by
          unfold out_dim
          rw [if_neg hcase]
        have hsq : h.hidden * out_dim h m ≤ (2 ^ 16 - 1) * (2 ^ 16 - 1) := by
          rw [hod]
          exact Nat.mul_le_mul (by omega) (by omega)
        have h4 : out_dim h m * 4 ≤ (2 ^ 16 - 1) * 4 := by
          rw [hod]
          exact Nat.mul_le_mul (by omega) (le_refl 4)
        have hterm : (2 ^ 16 - 1) * (2 ^ 16 - 1) + (2 ^ 16 - 1) * 4 ≤
            2 ^ 33 := by norm_num
        have hif0 : ¬ (h.n_layers ≤ m) := by omega
        rw [if_neg hif0] at hm
        have hif1 : ¬ (h.n_layers ≤ m + 1) := by omega
        rw [if_neg hif1]
        omega

end AiModel

open AiModel in
/-- C7: for every valid model header (with its `u16`/`u32` field
bounds) of the implemented `int8` dtype and every layer `l` with
`l + 1 < n_layers`: consecutive layer offsets differ by exactly
`in_dim(l)*out_dim(l) + 4*out_dim(l)`; the bias pointer of layer `l`
lies exactly `in_dim(l)*out_dim(l)` bytes after its weights pointer;
layer 0 starts at payload offset 16; and the per-layer extents sum to
exactly `total_weights_bytes(h)`. -/
theorem model_layout_contiguous (base : ℕ) (h : AiModel.ModelHeader)
    (l : ℕ) (_hvalid : h.valid = true) (hd : h.dtype = 0)
    (hn : h.n_layers < 2 ^ 16) (hh : h.hidden < 2 ^ 16)
    (hv : h.vocab < 2 ^ 32) (hl : l + 1 < h.n_layers) :
    layer_ptr_int8 base h l = some (base + 16 + offset_loop h l) ∧
    layer_ptr_int8 base h (l + 1) =
      some (base + 16 + offset_loop h (l + 1)) ∧
    layer_dims h l = some (h.hidden, out_dim h l) ∧
    offset_loop h (l + 1) - offset_loop h l =
      h.hidden * out_dim h l + 4 * out_dim h l ∧
    bias_ptr_i32 base h l =
      some (base + 16 + (offset_loop h l + h.hidden * out_dim h l)) ∧
    layer_ptr_int8 base h 0 = some (base + 16) ∧
    WeightsLayout_compute h =
      some (∑ i ∈ Finset.range h.n_layers,
        (h.hidden * out_dim h i + 4 * out_dim h i)) := by
  have hsum_l := offset_loop_eq_sum h hn hh hv l (by omega)
  have hsum_l1 := offset_loop_eq_sum h hn hh hv (l + 1) (by omega)
  have hout := out_dim_lt h hh hv l
  have hmulb : h.hidden * out_dim h l ≤ (2 ^ 16 - 1) * (2 ^ 32 - 1) :=
    Nat.mul_le_mul (by omega) (by omega)
  have hmul1 : satMul64 h.hidden (out_dim h l) = h.hidden * out_dim h l := by
    unfold satMul64
    have : (2 ^ 16 - 1) * (2 ^ 32 - 1) < 2 ^ 64 - 1 := by norm_num
    omega
  have hlb : l * 2 ^ 33 ≤ 2 ^ 16 * 2 ^ 33 :=
    Nat.mul_le_mul (by omega) (le_refl _)
  have hprev : offset_loop h l ≤ l * 2 ^ 33 + 2 ^ 49 := by
    have hb := hsum_l.2
    split_ifs at hb <;> omega
  refine ⟨?_, ?_, ?_, ?_, ?_, ?_, ?_⟩
  · unfold layer_ptr_int8
    rw [if_neg (by omega), if_neg (by omega)]
  · unfold layer_ptr_int8
    rw [if_neg (by omega), if_neg (by omega)]
  · unfold layer_dims
    rw [if_neg (by omega)]
  · rw [hsum_l1.1, Finset.sum_range_succ, hsum_l.1]
    omega
  · unfold bias_ptr_i32
    rw [if_neg (by omega), if_neg (by omega), hmul1]
    have hsat : satAdd64 (offset_loop h l) (h.hidden * out_dim h l) =
        offset_loop h l + h.hidden * out_dim h l := by
      unfold satAdd64
      have : 2 ^ 16 * 2 ^ 33 + 2 ^ 49 + (2 ^ 16 - 1) * (2 ^ 32 - 1) <
          2 ^ 64 - 1 := by norm_num
      omega
    rw [hsat]
  · unfold layer_ptr_int8
    rw [if_neg (by omega), if_neg (by omega)]
    rfl
  · unfold WeightsLayout_compute
    rw [if_neg (by omega), if_neg (by omega),
      (offset_loop_eq_sum h hn hh hv h.n_layers (le_refl _)).1]

open AiModel in
/-- C7 witness: the concrete valid header with 3 layers, hidden 4,
vocab 7, dtype 0 at base 100 and layer 0 satisfies all hypotheses and
the full layout conclusion. -/
theorem model_layout_contiguous_witness :
    layer_ptr_int8 100 ⟨MAGIC, 3, 4, 7, 0⟩ 0 =
      some (100 + 16 + offset_loop ⟨MAGIC, 3, 4, 7, 0⟩ 0) ∧
    layer_ptr_int8 100 ⟨MAGIC, 3, 4, 7, 0⟩ 1 =
      some (100 + 16 + offset_loop ⟨MAGIC, 3, 4, 7, 0⟩ 1) ∧
    layer_dims ⟨MAGIC, 3, 4, 7, 0⟩ 0 =
      some (4, out_dim ⟨MAGIC, 3, 4, 7, 0⟩ 0) ∧
    offset_loop ⟨MAGIC, 3, 4, 7, 0⟩ 1 - offset_loop ⟨MAGIC, 3, 4, 7, 0⟩ 0 =
      4 * out_dim ⟨MAGIC, 3, 4, 7, 0⟩ 0 + 4 * out_dim ⟨MAGIC, 3, 4, 7, 0⟩ 0 ∧
    bias_ptr_i32 100 ⟨MAGIC, 3, 4, 7, 0⟩ 0 =
      some (100 + 16 + (offset_loop ⟨MAGIC, 3, 4, 7, 0⟩ 0 +
        4 * out_dim ⟨MAGIC, 3, 4, 7, 0⟩ 0)) ∧
    layer_ptr_int8 100 ⟨MAGIC, 3, 4, 7, 0⟩ 0 = some (100 + 16) ∧
    WeightsLayout_compute ⟨MAGIC, 3, 4, 7, 0⟩ =
      some (∑ i ∈ Finset.range 3,
        (4 * out_dim ⟨MAGIC, 3, 4, 7, 0⟩ i +
          4 * out_dim ⟨MAGIC, 3, 4, 7, 0⟩ i)) :=
  model_layout_contiguous 100 ⟨MAGIC, 3, 4, 7, 0⟩ 0 (by decide) rfl
    (by norm_num) (by norm_num) (by norm_num) (by norm_num)

namespace Xhci

/-- A Transfer Request Block from `xhci.rs`:
`{parameter: u64, status: u32, control: u32}`. -/
structure Trb where
  parameter : ℕ
  status : ℕ
  control : ℕ
  deriving Repr, DecidableEq

/-- `TRB_TYPE_LINK = 6`. -/
def TRB_TYPE_LINK : ℕ := 6

/-- `TRB_TYPE_NO_OP_COMMAND = 23`. -/
def TRB_TYPE_NO_OP_COMMAND : ℕ := 23

/-- `init_link_trb` from `xhci.rs`: writes the last slot's parameter
and control (type `LINK`, cycle bit 1, toggle-cycle bit when `toggle`);
the status word is left as it was. -/
def init_link_trb (trbs : List Trb) (base_phys : ℕ) (toggle : Bool) :
    List Trb :=
  if trbs.isEmpty then trbs
  else
    trbs.set (trbs.length - 1)
      { parameter := base_phys
        status := (trbs.getD (trbs.length - 1) ⟨0, 0, 0⟩).status
        control := ((TRB_TYPE_LINK &&& 0x3F) <<< 10) ||| 1 |||
          (if toggle then 2 else 0) }

/-- The command-ring producer state from `ControllerState` in
`xhci.rs`: the TRB array, `command_ring_enqueue` and
`command_ring_cycle`. -/
structure CmdRing where
  trbs : List Trb
  enqueue : ℕ
  cycle : Bool
  deriving Repr, DecidableEq

/-- `enqueue_command_trb` from `xhci.rs`: with `usable = len - 1`
(the last slot is the Link TRB and is never written), write the TRB at
`enqueue % usable` carrying the producer's cycle bit plus the IOC bit,
advance the index modulo `usable`, and toggle the cycle state exactly
when the index wraps to 0.  An unusable ring (`usable = 0`) is left
unchanged. -/
def enqueue_command_trb (s : CmdRing) (trb_type parameter status : ℕ) :
    CmdRing :=
  if s.trbs.length - 1 = 0 then s
  else
    { trbs := s.trbs.set (s.enqueue % (s.trbs.length - 1))
        ⟨parameter, status,
          ((trb_type &&& 0x3F) <<< 10) ||| (1 <<< 5) |||
            (if s.cycle then 1 else 0)⟩
      enqueue := (s.enqueue + 1) % (s.trbs.length - 1)
      cycle := if (s.enqueue + 1) % (s.trbs.length - 1) = 0 then !s.cycle
        else s.cycle }

/-- The ring consumer's cursor and cycle state. -/
structure Consumer where
  dequeue : ℕ
  cycle : Bool
  deriving Repr, DecidableEq

/-- Modelled from the spec: the command-ring consumer is the xHCI
controller hardware, which is not part of src/; §4.8.3 and the glossary
describe its discipline: it reads the TRB at its dequeue index; a
pending entry exists iff the TRB's cycle bit equals the consumer's
cycle state; the Link TRB in the last slot redirects to slot 0 and,
having toggle-cycle set, flips the consumer's cycle state when
crossed. -/
def consumer_step (trbs : List Trb) (c : Consumer) :
    Consumer × Option Trb :=
  let c1 : Consumer :=
    if c.dequeue = trbs.length - 1 then ⟨0, !c.cycle⟩ else c
  let trb := trbs.getD c1.dequeue ⟨0, 0, 0⟩
  if trb.control % 2 = (if c1.cycle then 1 else 0) then
    (⟨c1.dequeue + 1, c1.cycle⟩, some trb)
  else (c1, none)

/-- An interleaved producer/consumer trace step. -/
inductive RingOp where
  | enq (param : ℕ)
  | deq
  deriving Repr, DecidableEq

/-- Run a trace of enqueues (by the driver, via `enqueue_command_trb`)
and dequeue attempts (by the modelled hardware consumer), collecting
the `(parameter, cycle bit)` of each TRB the consumer observes, in
order. -/
def run_ring (ops : List RingOp) (p : CmdRing) (c : Consumer) :
    List (ℕ × ℕ) :=
  match ops with
  | [] => []
  | .enq param :: rest =>
    run_ring rest (enqueue_command_trb p TRB_TYPE_NO_OP_COMMAND param 0) c
  | .deq :: rest =>
    match consumer_step p.trbs c with
    | (c1, some trb) => (trb.parameter, trb.control % 2) :: run_ring rest p c1
    | (c1, none) => run_ring rest p c1

/-- The capacity-4 command ring of the wrap scenario: 4 zeroed TRBs
with the Link TRB installed in the last slot (toggle-cycle set),
producer starting at index 0 with cycle 1. -/
def c4_ring0 : CmdRing :=
  { trbs := init_link_trb (List.replicate 4 ⟨0, 0, 0⟩) 0x1000 true
    enqueue := 0
    cycle := true }

/-- The wrap-scenario trace: enqueue A,B,C (parameters 10,11,12), let
the consumer drain them (its fourth attempt crosses the Link TRB,
toggles its cycle, and finds no pending entry), then enqueue D,E
(parameters 13,14) and drain those. -/
def c4_ops : List RingOp :=
  [.enq 10, .enq 11, .enq 12, .deq, .deq, .deq, .deq,
   .enq 13, .enq 14, .deq, .deq]

/-- The xHCI bring-up oracle: whether the MMIO base was null, whether
the controller was initially running, and whether each bounded
`wait_for` (10^6 polling iterations each) observes its condition in
time: the halt wait, the reset-bit-clear wait, the post-reset halt
wait, the run wait, and the No-Op command-completion wait.  These
depend on the hardware, so they are oracle inputs. -/
structure InitOracle where
  base_null : Bool
  running : Bool
  halt_ok : Bool
  reset_clear_ok : Bool
  reset_halt_ok : Bool
  run_ok : Bool
  noop_ok : Bool
  deriving Repr, DecidableEq

/-- `init_controller` from `xhci.rs` at the level of its control flow:
each bounded wait that expires returns the corresponding error; each
failed allocation returns its error; the final No-Op
command-completion wait only logs on timeout (`"command timeout"`) and
the function still returns `Ok(())`.  The four `alloc_aligned` results
are passed in (only their success matters to the control flow). -/
def init_controller (o : InitOracle)
    (alloc_cmd alloc_dcbaa alloc_event alloc_erst : Option ℕ) :
    Except String Unit :=
  if o.base_null then .error "xhci: null base"
  else if o.running && !o.halt_ok then .error "xhci: halt timeout"
  else if !o.reset_clear_ok then .error "xhci: reset bit stuck"
  else if !o.reset_halt_ok then .error "xhci: reset halt timeout"
  else if alloc_cmd.isNone then .error "xhci: no memory for command ring"
  else if alloc_dcbaa.isNone then .error "xhci: no dcbaa"
  else if alloc_event.isNone then .error "xhci: no event ring"
  else if alloc_erst.isNone then .error "xhci: no erst"
  else if !o.run_ok then .error "xhci: run timeout"
  else .ok ()

/-- A console side effect performed by the HID decoding path
(`vga::put_char` or `vga::backspace`). -/
inductive ConsoleOp where
  | put (c : Char)
  | backspace
  deriving Repr, DecidableEq

/-- `hid_usage_to_ascii` from `xhci.rs`: the returned optional
character, paired with the console operations the function performs
directly (`vga::put_char('\n')` for Enter `0x28`, `vga::backspace()`
for `0x2a`). -/
def hid_usage_to_ascii (usage : ℕ) (shift : Bool) :
    Option Char × List ConsoleOp :=
  if 0x04 ≤ usage ∧ usage ≤ 0x1d then
    (some (Char.ofNat ((if shift then 65 else 97) + (usage - 0x04))), [])
  else if 0x1e ≤ usage ∧ usage ≤ 0x26 then
    (some (Char.ofNat (0x31 + (usage - 0x1e))), [])
  else if usage = 0x27 then (some (Char.ofNat 48), [])
  else if usage = 0x28 then (none, [.put (Char.ofNat 10)])
  else if usage = 0x2a then (none, [.backspace])
  else if usage = 0x2c then (some (Char.ofNat 32), [])
  else if usage = 0x2d then
    (some (Char.ofNat (if shift then 95 else 45)), [])
  else if usage = 0x2e then
    (some (Char.ofNat (if shift then 43 else 61)), [])
  else if usage = 0x2f then
    (some (Char.ofNat (if shift then 123 else 91)), [])
  else if usage = 0x30 then
    (some (Char.ofNat (if shift then 125 else 93)), [])
  else if usage = 0x31 then
    (some (Char.ofNat (if shift then 124 else 92)), [])
  else if usage = 0x33 then
    (some (Char.ofNat (if shift then 58 else 59)), [])
  else if usage = 0x34 then
    (some (Char.ofNat (if shift then 34 else 39)), [])
  else if usage = 0x36 then
    (some (Char.ofNat (if shift then 60 else 44)), [])
  else if usage = 0x37 then
    (some (Char.ofNat (if shift then 62 else 46)), [])
  else if usage = 0x38 then
    (some (Char.ofNat (if shift then 63 else 47)), [])
  else (none, [])

/-- `decode_hid_report` from `xhci.rs` as the ordered sequence of
console operations it performs (the serial hex dump is not modelled):
`shift` is `(data[0] & 0x22) != 0` (modifier bits 1 and 5, LShift and
RShift); the key is `data[2]`; any operation inside
`hid_usage_to_ascii` happens before the `vga::put_char(ch)` for a
returned character. -/
def decode_hid_report (data : List ℕ) : List ConsoleOp :=
  (hid_usage_to_ascii (data.getD 2 0) ((data.getD 0 0 &&& 0x22) != 0)).2 ++
    (match (hid_usage_to_ascii (data.getD 2 0)
        ((data.getD 0 0 &&& 0x22) != 0)).1 with
      | some c => [.put c]
      | none => [])

end Xhci

open Xhci in
/-- C4: the command-ring producer writes the TRB at the current enqueue
index with a control word whose bit 0 is the producer's current cycle
state, advances the index modulo `len - 1` (the Link TRB slot is never
written), and toggles its cycle state exactly when the index wraps
to 0; and in the capacity-4 wrap scenario the five enqueued commands
with parameters 10..14 are observed by the consumer in order with
cycle bits 1,1,1,0,0 — the consumer's cycle toggling as it crosses the
Link TRB. -/
theorem cmd_ring_cycle_discipline (s : Xhci.CmdRing) (ty p st : ℕ)
    (_hL : 2 ≤ s.trbs.length) (he : s.enqueue < s.trbs.length - 1) :
    (enqueue_command_trb s ty p st).trbs = s.trbs.set s.enqueue
      ⟨p, st, ((ty &&& 0x3F) <<< 10) ||| (1 <<< 5) |||
        (if s.cycle then 1 else 0)⟩ ∧
    (((ty &&& 0x3F) <<< 10) ||| (1 <<< 5) |||
      (if s.cycle then 1 else 0)).testBit 0 = s.cycle ∧
    (enqueue_command_trb s ty p st).enqueue =
      (s.enqueue + 1) % (s.trbs.length - 1) ∧
    ((enqueue_command_trb s ty p st).cycle = !s.cycle ↔
      (s.enqueue + 1) % (s.trbs.length - 1) = 0) ∧
    (enqueue_command_trb s ty p st).trbs[s.trbs.length - 1]? =
      s.trbs[s.trbs.length - 1]? ∧
    run_ring c4_ops c4_ring0 ⟨0, true⟩ =
      [(10, 1), (11, 1), (12, 1), (13, 0), (14, 0)] := by
  have husable : s.trbs.length - 1 ≠ 0 := by omega
  have hidx : s.enqueue % (s.trbs.length - 1) = s.enqueue :=
    Nat.mod_eq_of_lt he
  refine ⟨?_, ?_, ?_, ?_, ?_, by decide⟩
  · unfold enqueue_command_trb
    rw [if_neg husable, hidx]
  · cases hc : s.cycle <;>
      simp [Nat.testBit_or, Nat.testBit_shiftLeft]
  · unfold enqueue_command_trb
    rw [if_neg husable]
  · unfold enqueue_command_trb
    rw [if_neg husable]
    by_cases hz : (s.enqueue + 1) % (s.trbs.length - 1) = 0 <;>
      simp [hz]
  · unfold enqueue_command_trb
    rw [if_neg husable, hidx]
    exact List.getElem?_set_ne (by omega)

open Xhci in
/-- C4 witness: a concrete enqueue on a fresh capacity-4 ring satisfies
the hypotheses and all the general conclusions, and the wrap scenario
evaluates as claimed. -/
theorem cmd_ring_cycle_discipline_witness :
    (enqueue_command_trb c4_ring0 23 10 0).trbs = c4_ring0.trbs.set 0
      ⟨10, 0, ((23 &&& 0x3F) <<< 10) ||| (1 <<< 5) ||| 1⟩ ∧
    (((23 &&& 0x3F) <<< 10) ||| (1 <<< 5) ||| 1).testBit 0 = true ∧
    (enqueue_command_trb c4_ring0 23 10 0).enqueue = 1 % 3 ∧
    ((enqueue_command_trb c4_ring0 23 10 0).cycle = !true ↔ 1 % 3 = 0) ∧
    (enqueue_command_trb c4_ring0 23 10 0).trbs[3]? = c4_ring0.trbs[3]? ∧
    run_ring c4_ops c4_ring0 ⟨0, true⟩ =
      [(10, 1), (11, 1), (12, 1), (13, 0), (14, 0)] :=
  cmd_ring_cycle_discipline c4_ring0 23 10 0 (by decide) (by decide)

open Xhci in
/-- C5 counterexample: with the MMIO base valid, the controller not
initially running, every register wait succeeding, and all four
allocations succeeding, but the initial No-Op command-completion wait
timing out (`noop_ok = false`), `init_controller` still returns
`Ok(())` — the timeout is only logged — contradicting the claim that
every bring-up timeout returns an init error. -/
theorem noop_timeout_not_an_error :
    (InitOracle.noop_ok ⟨false, false, true, true, true, true, false⟩
      = false) ∧
    init_controller ⟨false, false, true, true, true, true, false⟩
      (some 1) (some 2) (some 3) (some 4) = .ok () :=
  ⟨rfl, rfl⟩

open Xhci in
/-- C5 (amended): `init_controller` succeeds iff the base is non-null,
the halt wait succeeds when the controller was running, both reset
waits and the run wait succeed, and all four allocations succeed.
Equivalently: a timeout of the halt wait, a reset wait or the run wait
(and any allocation failure) returns an init error, while the outcome
of the initial No-Op command-completion wait — absent from the
right-hand side — never affects the result: its timeout is only
logged.  (The claim's "left in a halted state" concerns the hardware
and is outside the embedding.) -/
theorem init_controller_ok_iff (o : Xhci.InitOracle)
    (a b c d : Option ℕ) :
    init_controller o a b c d = .ok () ↔
      (o.base_null = false ∧ (o.running = true → o.halt_ok = true) ∧
       o.reset_clear_ok = true ∧ o.reset_halt_ok = true ∧
       a.isSome = true ∧ b.isSome = true ∧ c.isSome = true ∧
       d.isSome = true ∧ o.run_ok = true) := by
  obtain ⟨bn, rn, ho, rc, rh, ro, no⟩ := o
  cases a <;> cases b <;> cases c <;> cases d <;>
    cases bn <;> cases rn <;> cases ho <;> cases rc <;> cases rh <;>
      cases ro <;> simp [init_controller]

open Xhci in
/-- C5 witness: the all-good oracle (even with the No-Op wait timing
out) satisfies the right-hand side and `init_controller` returns
`Ok(())`. -/
theorem init_controller_ok_iff_witness :
    init_controller ⟨false, true, true, true, true, true, false⟩
      (some 1) (some 2) (some 3) (some 4) = .ok () :=
  (init_controller_ok_iff ⟨false, true, true, true, true, true, false⟩
    (some 1) (some 2) (some 3) (some 4)).mpr
    ⟨rfl, fun _ => rfl, rfl, rfl, rfl, rfl, rfl, rfl, rfl⟩

open Xhci in
/-- C8: decoding the 8-byte boot-keyboard report
`[0x02, 0, 0x04, 0,0,0,0,0]` (LShift held, usage 0x04) pushes exactly
the character `A` (65) to the console, and decoding
`[0x00, 0, 0x28, 0,0,0,0,0]` (Enter) pushes exactly the newline
character (10); in general shift is `(data[0] & 0x22) != 0` (modifier
bits 1 and 5) and every letter usage `0x04..=0x1d` maps through the
fixed table to `(shift ? 65 : 97) + (usage - 4)`. -/
theorem hid_decode_reports (mods r1 key : ℕ) (rest : List ℕ)
    (hk1 : 0x04 ≤ key) (hk2 : key ≤ 0x1d) :
    decode_hid_report [0x02, 0x00, 0x04, 0, 0, 0, 0, 0] =
      [.put (Char.ofNat 65)] ∧
    decode_hid_report [0x00, 0x00, 0x28, 0, 0, 0, 0, 0] =
      [.put (Char.ofNat 10)] ∧
    decode_hid_report (mods :: r1 :: key :: rest) =
      [.put (Char.ofNat
        ((if (mods &&& 0x22) != 0 then 65 else 97) + (key - 4)))] := by
  refine ⟨by decide, by decide, ?_⟩
  unfold decode_hid_report hid_usage_to_ascii
  simp only [List.getD_cons_zero, List.getD_cons_succ]
  rw [if_pos ⟨hk1, hk2⟩]
  rfl

open Xhci in
/-- C8 witness: the report `[0x20, 0, 0x05, 0,0,0,0,0]` (RShift held,
usage 0x05) pushes exactly `B` (66). -/
theorem hid_decode_reports_witness :
    decode_hid_report [0x20, 0x00, 0x05, 0, 0, 0, 0, 0] =
      [.put (Char.ofNat
        ((if ((0x20 : ℕ) &&& 0x22) != 0 then 65 else 97) + (0x05 - 4)))] :=
  (hid_decode_reports 0x20 0x00 0x05 [0, 0, 0, 0, 0]
    (by norm_num) (by norm_num)).2.2

namespace AiInitrd

/-- One ASCII hex digit, as decoded inside the `read_hex` closure of
`cpio_find` in `ai_initrd.rs`. -/
def hex_digit (c : ℕ) : Option ℕ :=
  if 48 ≤ c ∧ c ≤ 57 then some (c - 48)
  else if 97 ≤ c ∧ c ≤ 102 then some (10 + (c - 97))
  else if 65 ≤ c ∧ c ≤ 70 then some (10 + (c - 65))
  else none

/-- The fold of the `read_hex` closure: `v = (v << 4) | d` over the
field's bytes (`v` is a `u32`, the shift truncates to 32 bits). -/
def read_hex_fold (v : ℕ) : List ℕ → Option ℕ
  | [] => some v
  | c :: rest =>
    match hex_digit c with
    | none => none
    | some d => read_hex_fold (((v <<< 4) % 2 ^ 32) ||| d) rest

/-- The `read_hex` closure of `cpio_find`: decode the 8 ASCII-hex bytes
at `off`. -/
def read_hex8 (bytes : List ℕ) (off : ℕ) : Option ℕ :=
  read_hex_fold 0 ((bytes.drop off).take 8)

/-- `(x + 3) & !3` on `usize` — the 4-byte alignment step of
`cpio_find` (wrapping add, 64-bit mask). -/
def align4 (x : ℕ) : ℕ := ((x + 3) % 2 ^ 64) &&& (2 ^ 64 - 4)

/-- The cpio `newc` magic `b"070701"`. -/
def cpio_magic : List ℕ := [48, 55, 48, 55, 48, 49]

/-- The terminator entry name `b"TRAILER!!!"`. -/
def TRAILER_NAME : List ℕ := [84, 82, 65, 73, 76, 69, 82, 33, 33, 33]

/-- The loop body of `cpio_find` from `ai_initrd.rs`.  Per iteration:
check the magic at `off`; read `namesize` (header offset 94) and
`filesize` (offset 54); bounds-check the name; strip the trailing NUL;
4-align the data offset past the name; stop at the trailer entry;
return the data offset on an exact or `./`-prefixed name match (when
the data fits), else skip the 4-aligned data and continue.  The fuel
argument only bounds the iteration count (callers pass more fuel than
an archive can consume). -/
def cpio_find_loop (bytes : List ℕ) (name : List ℕ) :
    ℕ → ℕ → Option ℕ
  | 0, _ => none
  | fuel + 1, off =>
    if off + 110 ≤ bytes.length then
      if (bytes.drop off).take 6 ≠ cpio_magic then none
      else
        match read_hex8 bytes (off + 94), read_hex8 bytes (off + 54) with
        | some namesize, some filesize =>
          if bytes.length < off + 110 + namesize then none
          else
            let name_bytes := (bytes.drop (off + 110)).take namesize
            let fname := if 0 < namesize then name_bytes.take (namesize - 1)
              else name_bytes
            let data_off := align4 (off + 110 + namesize)
            if fname = TRAILER_NAME then none
            else if fname = name ∨ (fname.length = name.length + 2 ∧
                fname.take 2 = [46, 47] ∧ fname.drop 2 = name) then
              (if data_off + filesize ≤ bytes.length then some data_off
                else none)
            else cpio_find_loop bytes name fuel (align4 (data_off + filesize))
        | _, _ => none
    else none

/-- `cpio_find` from `ai_initrd.rs` (null base modelled as the empty
list; the offset into the archive stands for the returned data
pointer). -/
def cpio_find (bytes : List ℕ) (name : List ℕ) : Option ℕ :=
  if bytes.length < 110 then none
  else cpio_find_loop bytes name (bytes.length + 1) 0

/-- The file name `b"ai.mod"`. -/
def aimod_name : List ℕ := [97, 105, 46, 109, 111, 100]

/-- `ModelHeader::read_unaligned` on a byte list (the source
transmutes 16 little-endian bytes; reads past the list are not
modelled and return `none`). -/
def read_header (bytes : List ℕ) : Option AiModel.ModelHeader :=
  if bytes.length < 16 then none
  else some
    { magic := bytes.take 4
      n_layers := bytes.getD 4 0 + 256 * bytes.getD 5 0
      hidden := bytes.getD 6 0 + 256 * bytes.getD 7 0
      vocab := bytes.getD 8 0 + 256 * bytes.getD 9 0 +
        65536 * bytes.getD 10 0 + 16777216 * bytes.getD 11 0
      dtype := bytes.getD 12 0 }

/-- `try_set_model_from_initrd` from `ai_initrd.rs`, started with
`AI_MODEL_ADDR` null and the initrd installed: the pair
`(AI_MODEL_ADDR offset, AI_MODEL_LEN)` it stores, or `none` when it
stores nothing.  Note the length stored is
`INITRD_LEN.saturating_sub(data offset)` — the remainder of the initrd
— not the entry's filesize (the source says so in a comment). -/
def try_set_model_from_initrd (initrd : List ℕ) :
    Option (ℕ × ℕ) :=
  if 16 ≤ initrd.length then
    match cpio_find initrd aimod_name with
    | some off =>
      match read_header ((initrd.drop off).take 16) with
      | some h => if h.valid then some (off, initrd.length - off) else none
      | none => none
    | none => none
  else none

/-- An ASCII hex digit character (lower case), for building archive
fixtures. -/
def hexDigitChar (d : ℕ) : ℕ := if d < 10 then 48 + d else 97 + (d - 10)

/-- The most-significant-first hex digits of `n`, `k` characters wide
(fixture builder for the `newc` ASCII-hex fields described in §6 of
the spec). -/
def hexDigits : ℕ → ℕ → List ℕ
  | 0, _ => []
  | k + 1, n => hexDigitChar ((n >>> (4 * k)) &&& 15) :: hexDigits k n

/-- An 8-character ASCII-hex field. -/
def hex8 (n : ℕ) : List ℕ := hexDigits 8 n

/-- Eight ASCII `0` characters — a zeroed `newc` header field. -/
def z8 : List ℕ := List.replicate 8 48

/-- The six fields before `filesize` (ino, mode, uid, gid, nlink,
mtime), all zero: bytes 6..54 of a `newc` header, preceded by the
magic. -/
def hdr_pre : List ℕ := cpio_magic ++ z8 ++ z8 ++ z8 ++ z8 ++ z8 ++ z8

/-- The four fields between `filesize` and `namesize` (devmajor,
devminor, rdevmajor, rdevminor), all zero: bytes 62..94. -/
def hdr_mid : List ℕ := z8 ++ z8 ++ z8 ++ z8

/-- A well-formed 110-byte `newc` header with the given `filesize` and
`namesize` and all other fields zero (per §6 of the spec: magic
`"070701"`, 13 ASCII-hex fields of 8 characters; `filesize` at byte
54, `namesize` at byte 94, the checksum field — not validated by the
parser — last). -/
def mkNewcHeader (filesize namesize : ℕ) : List ℕ :=
  hdr_pre ++ hex8 filesize ++ hdr_mid ++ hex8 namesize ++ z8

/-- The archive terminator: a `newc` entry named `TRAILER!!!` with no
data (name 11 bytes with NUL, padded to a 4-byte boundary). -/
def trailer_entry : List ℕ :=
  mkNewcHeader 0 11 ++ TRAILER_NAME ++ [0] ++ [0, 0, 0]

/-- A well-formed `newc` archive whose first entry is `ai.mod` with
data `d`, followed by the trailer: header, name `"ai.mod\0"`
(namesize 7), 3 padding bytes up to offset 120, the data, the
trailer. -/
def mkArchive (d : List ℕ) : List ℕ :=
  mkNewcHeader d.length 7 ++ aimod_name ++ [0] ++ [0, 0, 0] ++ d ++
    trailer_entry

/-- The same archive but with the entry named `./ai.mod`
(namesize 9, 1 padding byte, data again at offset 120). -/
def mkArchiveDotSlash (d : List ℕ) : List ℕ :=
  mkNewcHeader d.length 9 ++ ([46, 47] ++ aimod_name) ++ [0] ++ [0] ++ d ++
    trailer_entry

lemma hex_digit_hexDigitChar (d : ℕ) (h : d < 16) :
    hex_digit (hexDigitChar d) = some d := by
  interval_cases d <;> decide

lemma land15 (n : ℕ) : n &&& 15 = n % 16 := by
  apply Nat.eq_of_testBit_eq
  intro i
  have h16 : (16 : ℕ) = 2 ^ 4 := by norm_num
  have h15 : (15 : ℕ) = 2 ^ 4 - 1 := by norm_num
  rw [Nat.testBit_land, h16, Nat.testBit_mod_two_pow, h15,
    Nat.testBit_two_pow_sub_one, Bool.and_comm]

lemma or16 (v d : ℕ) (h : d < 16) : (16 * v) ||| d = 16 * v + d := by
  have h16 : (16 : ℕ) = 2 ^ 4 := by norm_num
  apply Nat.eq_of_testBit_eq
  intro j
  rw [Nat.testBit_or, h16,
    Nat.testBit_mul_pow_two_add _ (by omega : d < 2 ^ 4),
    Nat.testBit_mul_pow_two]
  by_cases hj : j < 4
  · simp [hj, Nat.not_le.mpr hj]
  · have h2 : (16 : ℕ) ≤ 2 ^ j := by
      calc (16 : ℕ) = 2 ^ 4 := by norm_num
        _ ≤ 2 ^ j := Nat.pow_le_pow_right (by norm_num) (by omega)
    have hd : d.testBit j = false := Nat.testBit_eq_false_of_lt (by omega)
    simp [hj, hd, Nat.not_lt.mp hj]

lemma hexDigits_length (k n : ℕ) : (hexDigits k n).length = k := by
  induction k generalizing n with
  | zero => rfl
  | succ m ih => simp [hexDigits, ih]

/-- The hex encoder and the parser's hex decoder are inverse: folding
`v = (v << 4) | digit` over the most-significant-first digits of `n`
recovers `v * 16^k + n % 16^k`. -/
lemma read_hex_fold_hexDigits (k : ℕ) (hk : k ≤ 8) (v n : ℕ)
    (hv : v < 2 ^ (32 - 4 * k)) :
    read_hex_fold v (hexDigits k n) = some (v * 16 ^ k + n % 16 ^ k) := by
  induction k generalizing v with
  | zero => simp [hexDigits, read_hex_fold, Nat.mod_one]
  | succ k ih =>
    rw [hexDigits, read_hex_fold]
    have hdlt : (n / 16 ^ k) % 16 < 16 := Nat.mod_lt _ (by norm_num)
    have hd : (n >>> (4 * k)) &&& 15 = (n / 16 ^ k) % 16 := by
      rw [land15, Nat.shiftRight_eq_div_pow]
      congr 2
      rw [pow_mul]
      norm_num
    rw [hd, hex_digit_hexDigitChar _ hdlt]
    have hvle : v < 2 ^ (28 - 4 * k) := by
      have heq : 32 - 4 * (k + 1) = 28 - 4 * k := by omega
      rw [heq] at hv
      exact hv
    have hA : (16 : ℕ) * 2 ^ (28 - 4 * k) = 2 ^ (32 - 4 * k) := by
      rw [show (16 : ℕ) = 2 ^ 4 by norm_num, ← pow_add]
      congr 1
      omega
    have h28 : (2 : ℕ) ^ (28 - 4 * k) ≤ 2 ^ 28 :=
      Nat.pow_le_pow_right (by norm_num) (by omega)
    have hshl : (v <<< 4) % 2 ^ 32 = 16 * v := by
      rw [Nat.shiftLeft_eq, show v * 2 ^ 4 = 16 * v by ring]
      apply Nat.mod_eq_of_lt
      have h1 : (16 : ℕ) * 2 ^ 28 ≤ 2 ^ 32 := by norm_num
      have h2 := Nat.mul_le_mul_left 16 (le_of_lt (lt_of_lt_of_le hvle h28))
      omega
    rw [hshl]
    show read_hex_fold ((16 * v) ||| (n / 16 ^ k % 16)) (hexDigits k n) =
      some (v * 16 ^ (k + 1) + n % 16 ^ (k + 1))
    rw [or16 _ _ hdlt, ih (by omega) _ (by omega)]
    rw [Nat.mod_pow_succ]
    congr 1
    ring

lemma hex8_length (n : ℕ) : (hex8 n).length = 8 := by
  simp [hex8, hexDigits_length]

lemma read_hex_fold_hex8 (n : ℕ) (hn : n < 2 ^ 32) :
    read_hex_fold 0 (hex8 n) = some n := by
  rw [hex8, read_hex_fold_hexDigits 8 (le_refl 8) 0 n (by norm_num)]
  congr 1
  have h16 : (16 : ℕ) ^ 8 = 2 ^ 32 := by norm_num
  rw [h16, Nat.mod_eq_of_lt hn]
  ring

lemma mkNewcHeader_length (a b : ℕ) : (mkNewcHeader a b).length = 110 := by
  simp [mkNewcHeader, hdr_pre, hdr_mid, z8, cpio_magic, hex8_length]

lemma trailer_entry_length : trailer_entry.length = 124 := by
  simp [trailer_entry, mkNewcHeader_length, TRAILER_NAME]

lemma mkArchive_length (d : List ℕ) :
    (mkArchive d).length = 244 + d.length := by
  simp [mkArchive, mkNewcHeader_length, aimod_name, trailer_entry_length]
  omega

/-- One iteration of `cpio_find`'s loop at a matching entry returns the
4-aligned data offset past the header and NUL-terminated name. -/
lemma cpio_find_loop_match (bytes name fname_val : List ℕ)
    (fuel off ns fs : ℕ)
    (h110 : off + 110 ≤ bytes.length)
    (hmagic : (bytes.drop off).take 6 = cpio_magic)
    (hns : read_hex8 bytes (off + 94) = some ns)
    (hfs : read_hex8 bytes (off + 54) = some fs)
    (hbound : ¬ bytes.length < off + 110 + ns)
    (hns0 : 0 < ns)
    (hfname : ((bytes.drop (off + 110)).take ns).take (ns - 1) = fname_val)
    (hnott : fname_val ≠ TRAILER_NAME)
    (hmatch : fname_val = name ∨ (fname_val.length = name.length + 2 ∧
      fname_val.take 2 = [46, 47] ∧ fname_val.drop 2 = name))
    (hfit : align4 (off + 110 + ns) + fs ≤ bytes.length) :
    cpio_find_loop bytes name (fuel + 1) off =
      some (align4 (off + 110 + ns)) := by
  rw [cpio_find_loop]
  rw [if_pos h110, if_neg (by simp [hmagic]), hns, hfs]
  show (if bytes.length < off + 110 + ns then none else _) = _
  rw [if_neg hbound]
  simp only [if_pos hns0, hfname]
  rw [if_neg hnott, if_pos hmatch, if_pos hfit]

lemma read_hex8_mkArchive_54 (d : List ℕ) (hd : d.length < 2 ^ 32) :
    read_hex8 (mkArchive d) 54 = some d.length := by
  have harch : mkArchive d = hdr_pre ++ (hex8 d.length ++ (hdr_mid ++
      (hex8 7 ++ (z8 ++ (aimod_name ++ ([0] ++ ([0, 0, 0] ++
        (d ++ trailer_entry)))))))) := by
    simp [mkArchive, mkNewcHeader, List.append_assoc]
  rw [read_hex8, harch, List.drop_left' (by decide : hdr_pre.length = 54),
    List.take_left' (hex8_length d.length), read_hex_fold_hex8 _ hd]

lemma read_hex8_mkArchive_94 (d : List ℕ) :
    read_hex8 (mkArchive d) 94 = some 7 := by
  have harch : mkArchive d = (hdr_pre ++ hex8 d.length ++ hdr_mid) ++
      (hex8 7 ++ (z8 ++ (aimod_name ++ ([0] ++ ([0, 0, 0] ++
        (d ++ trailer_entry)))))) := by
    simp [mkArchive, mkNewcHeader, List.append_assoc]
  have hlen94 : (hdr_pre ++ hex8 d.length ++ hdr_mid).length = 94 := by
    simp [hdr_pre, hdr_mid, z8, cpio_magic, hex8_length]
  rw [read_hex8, harch, List.drop_left' hlen94,
    List.take_left' (hex8_length 7), read_hex_fold_hex8 _ (by norm_num)]

lemma mkArchive_magic (d : List ℕ) :
    ((mkArchive d).drop 0).take 6 = cpio_magic := by
  have harch : mkArchive d = cpio_magic ++ (z8 ++ (z8 ++ (z8 ++ (z8 ++
      (z8 ++ (z8 ++ (hex8 d.length ++ (hdr_mid ++ (hex8 7 ++ (z8 ++
      (aimod_name ++ ([0] ++ ([0, 0, 0] ++ (d ++
        trailer_entry)))))))))))))) := by
    simp [mkArchive, mkNewcHeader, hdr_pre, List.append_assoc]
  rw [List.drop_zero, harch,
    List.take_left' (by decide : cpio_magic.length = 6)]

lemma mkArchive_name (d : List ℕ) :
    (((mkArchive d).drop (0 + 110)).take 7).take 6 = aimod_name := by
  have harch : mkArchive d = mkNewcHeader d.length 7 ++
      ((aimod_name ++ [0]) ++ ([0, 0, 0] ++ (d ++ trailer_entry))) := by
    simp [mkArchive, List.append_assoc]
  rw [harch]
  rw [show (0 + 110) = 110 by norm_num,
    List.drop_left' (mkNewcHeader_length d.length 7),
    List.take_left' (by decide : (aimod_name ++ [0]).length = 7)]
  decide

lemma cpio_find_mkArchive (d : List ℕ) (hd : d.length < 2 ^ 32) :
    cpio_find (mkArchive d) aimod_name = some 120 := by
  have hlen := mkArchive_length d
  rw [cpio_find, if_neg (by omega)]
  have h := cpio_find_loop_match (mkArchive d) aimod_name aimod_name
    (mkArchive d).length 0 7 d.length
    (by omega)
    (mkArchive_magic d)
    (by simpa using read_hex8_mkArchive_94 d)
    (by simpa using read_hex8_mkArchive_54 d hd)
    (by omega)
    (by norm_num)
    (by simpa using mkArchive_name d)
    (by decide)
    (Or.inl rfl)
    (by
      have h120 : align4 (0 + 110 + 7) = 120 := by decide
      omega)
  rw [h]
  have h120 : align4 (0 + 110 + 7) = 120 := by decide
  rw [h120]

lemma mkArchiveDS_length (d : List ℕ) :
    (mkArchiveDotSlash d).length = 244 + d.length := by
  simp [mkArchiveDotSlash, mkNewcHeader_length, aimod_name,
    trailer_entry_length]
  omega

lemma read_hex8_mkArchiveDS_54 (d : List ℕ) (hd : d.length < 2 ^ 32) :
    read_hex8 (mkArchiveDotSlash d) 54 = some d.length := by
  have harch : mkArchiveDotSlash d = hdr_pre ++ (hex8 d.length ++ (hdr_mid ++
      (hex8 9 ++ (z8 ++ (([46, 47] ++ aimod_name) ++ ([0] ++ ([0] ++
        (d ++ trailer_entry)))))))) := by
    simp [mkArchiveDotSlash, mkNewcHeader, List.append_assoc]
  rw [read_hex8, harch, List.drop_left' (by decide : hdr_pre.length = 54),
    List.take_left' (hex8_length d.length), read_hex_fold_hex8 _ hd]

lemma read_hex8_mkArchiveDS_94 (d : List ℕ) :
    read_hex8 (mkArchiveDotSlash d) 94 = some 9 := by
  have harch : mkArchiveDotSlash d = (hdr_pre ++ hex8 d.length ++ hdr_mid) ++
      (hex8 9 ++ (z8 ++ (([46, 47] ++ aimod_name) ++ ([0] ++ ([0] ++
        (d ++ trailer_entry)))))) := by
    simp [mkArchiveDotSlash, mkNewcHeader, List.append_assoc]
  have hlen94 : (hdr_pre ++ hex8 d.length ++ hdr_mid).length = 94 := by
    simp [hdr_pre, hdr_mid, z8, cpio_magic, hex8_length]
  rw [read_hex8, harch, List.drop_left' hlen94,
    List.take_left' (hex8_length 9), read_hex_fold_hex8 _ (by norm_num)]

lemma mkArchiveDS_magic (d : List ℕ) :
    ((mkArchiveDotSlash d).drop 0).take 6 = cpio_magic := by
  have harch : mkArchiveDotSlash d = cpio_magic ++ (z8 ++ (z8 ++ (z8 ++ (z8 ++
      (z8 ++ (z8 ++ (hex8 d.length ++ (hdr_mid ++ (hex8 9 ++ (z8 ++
      (([46, 47] ++ aimod_name) ++ ([0] ++ ([0] ++ (d ++
        trailer_entry)))))))))))))) := by
    simp [mkArchiveDotSlash, mkNewcHeader, hdr_pre, List.append_assoc]
  rw [List.drop_zero, harch,
    List.take_left' (by decide : cpio_magic.length = 6)]

lemma mkArchiveDS_name (d : List ℕ) :
    (((mkArchiveDotSlash d).drop (0 + 110)).take 9).take 8 =
      [46, 47] ++ aimod_name := by
  have harch : mkArchiveDotSlash d = mkNewcHeader d.length 9 ++
      ((([46, 47] ++ aimod_name) ++ [0]) ++
        ([0] ++ (d ++ trailer_entry))) := by
    simp [mkArchiveDotSlash, List.append_assoc]
  rw [harch]
  rw [show (0 + 110) = 110 by norm_num,
    List.drop_left' (mkNewcHeader_length d.length 9),
    List.take_left'
      (by decide : (([46, 47] ++ aimod_name) ++ [0]).length = 9)]
  decide

lemma cpio_find_mkArchiveDS (d : List ℕ) (hd : d.length < 2 ^ 32) :
    cpio_find (mkArchiveDotSlash d) aimod_name = some 120 := by
  have hlen := mkArchiveDS_length d
  rw [cpio_find, if_neg (by omega)]
  have h := cpio_find_loop_match (mkArchiveDotSlash d) aimod_name
    ([46, 47] ++ aimod_name) (mkArchiveDotSlash d).length 0 9 d.length
    (by omega)
    (mkArchiveDS_magic d)
    (by simpa using read_hex8_mkArchiveDS_94 d)
    (by simpa using read_hex8_mkArchiveDS_54 d hd)
    (by omega)
    (by norm_num)
    (by simpa using mkArchiveDS_name d)
    (by decide)
    (Or.inr ⟨by decide, by decide, by decide⟩)
    (by
      have h120 : align4 (0 + 110 + 9) = 120 := by decide
      omega)
  rw [h]
  have h120 : align4 (0 + 110 + 9) = 120 := by decide
  rw [h120]

end AiInitrd

set_option maxRecDepth 10000 in
open AiInitrd in
/-- C9 counterexample: for the well-formed archive whose `ai.mod` entry
holds a 16-byte valid model blob followed by the trailer entry,
`cpio_find` returns only the data offset 120 — no length — and the
length the driver records (`AI_MODEL_LEN` in
`try_set_model_from_initrd`) is the remaining initrd length 140, not
the entry's filesize 16; so the pair the code produces is not
`(data_addr, len(data))` as the claim states. -/
theorem cpio_find_no_filesize_counterexample :
    ([65, 73, 77, 68, 1, 0, 1, 0, 0, 0, 0, 0, 0, 0, 0, 0] :
      List ℕ).length = 16 ∧
    cpio_find
      (mkArchive [65, 73, 77, 68, 1, 0, 1, 0, 0, 0, 0, 0, 0, 0, 0, 0])
      aimod_name = some 120 ∧
    try_set_model_from_initrd
      (mkArchive [65, 73, 77, 68, 1, 0, 1, 0, 0, 0, 0, 0, 0, 0, 0, 0]) =
      some (120, 140) ∧
    (140 : ℕ) ≠ 16 := by
  refine ⟨rfl, ?_, ?_, by norm_num⟩
  · decide
  · decide

open AiInitrd in
/-- C9 (amended): for a well-formed `newc` archive whose entry is named
`ai.mod` or `./ai.mod` with data `d` (filesize below `2^32`),
`cpio_find` with name `ai.mod` returns the offset of `d` — located
after the 110-byte header and NUL-terminated name with 4-byte
alignment, here 120 — but no length; the length the driver records is
the remaining initrd length (`d.length` plus the 124-byte trailer
entry), not the entry's filesize. -/
theorem cpio_find_locates_data (d : List ℕ) (hd : d.length < 2 ^ 32) :
    cpio_find (mkArchive d) aimod_name = some 120 ∧
    cpio_find (mkArchiveDotSlash d) aimod_name = some 120 ∧
    (mkArchive d).length - 120 = d.length + 124 := by
  refine ⟨cpio_find_mkArchive d hd, cpio_find_mkArchiveDS d hd, ?_⟩
  have := mkArchive_length d
  omega

open AiInitrd in
/-- C9 witness: the archives holding the 4-byte payload `[1,2,3,4]`
under both names locate the data at offset 120, and the would-be
recorded length is 128, not 4. -/
theorem cpio_find_locates_data_witness :
    cpio_find (mkArchive [1, 2, 3, 4]) aimod_name = some 120 ∧
    cpio_find (mkArchiveDotSlash [1, 2, 3, 4]) aimod_name = some 120 ∧
    (mkArchive [1, 2, 3, 4]).length - 120 = 4 + 124 :=
  cpio_find_locates_data [1, 2, 3, 4] (by norm_num)

end MonOS
